import Mathlib

/-!
Verification of the segmentation and reconstruction engine of `VSR.py`
(video silence remover).  Times are modelled as exact rationals `ℚ`;
the Python code computes with IEEE doubles, but every comparison and
arithmetic step relevant to the properties below is far from any
rounding boundary, so the rational model is faithful.
-/

namespace VSR

/-- One iteration step of the `for s_start, s_end in zip(...)` loop of
`compute_keep_segments` (`VSR.py` lines 58-63): walks the positionally
zipped silence pairs with the running cursor `current_start`, emitting
`(current_start, s_start)` whenever the gap exceeds `min_segment_length`,
and unconditionally advancing the cursor to `s_end`.  Returns the emitted
segments together with the final cursor value. -/
def segLoop (min_segment_length : ℚ) : List (ℚ × ℚ) → ℚ → List (ℚ × ℚ) × ℚ
  | [], current_start => ([], current_start)
  | (s_start, s_end) :: rest, current_start =>
    let tail := segLoop min_segment_length rest s_end
    if s_start - current_start > min_segment_length then
      ((current_start, s_start) :: tail.1, tail.2)
    else
      (tail.1, tail.2)

/-- The `for i in range(len(segments))` margin loop of
`compute_keep_segments` (`VSR.py` lines 70-78): `n` is `len(segments)`,
`i` the running index.  The left margin is applied to every segment but
the first (`i > 0`), the right margin to every segment but the last
(`i < len(segments) - 1`). -/
def marginLoop (duration margin : ℚ) (n : ℕ) : List (ℚ × ℚ) → ℕ → List (ℚ × ℚ)
  | [], _ => []
  | se :: rest, i =>
    let s := if 0 < i then max (se.1 - margin) 0 else se.1
    let e := if i < n - 1 then min (se.2 + margin) duration else se.2
    (s, e) :: marginLoop duration margin n rest (i + 1)

/-- The margin pass of `compute_keep_segments` (`VSR.py` lines 68-79),
run only when `margin > 0`. -/
def applyMargin (segments : List (ℚ × ℚ)) (duration margin : ℚ) : List (ℚ × ℚ) :=
  marginLoop duration margin segments.length segments 0

/-- `compute_keep_segments` (`VSR.py` lines 53-81): from positionally
zipped silence intervals, the total duration, the minimum segment length
(Python default `0.1`) and the margin (Python default `0.0`), produce the
list of `(start, end)` keep segments. -/
def compute_keep_segments (silence_starts silence_ends : List ℚ) (duration : ℚ)
    (min_segment_length : ℚ := 1/10) (margin : ℚ := 0) : List (ℚ × ℚ) :=
  let walk := segLoop min_segment_length (silence_starts.zip silence_ends) 0
  let segments :=
    if duration - walk.2 > min_segment_length then walk.1 ++ [(walk.2, duration)] else walk.1
  if margin > 0 then applyMargin segments duration margin else segments

/-- The ffmpeg filter parameters `cut_segment` computes (`VSR.py`
lines 88-99): trim interval, fade-in start (always `0`), fade-out start
(`segment_length - fade_duration`) and the effective fade duration after
the too-short-segment adjustment of lines 92-93. -/
structure CutSpec where
  trimStart : ℚ
  trimEnd : ℚ
  fadeInStart : ℚ
  fadeOutStart : ℚ
  fadeDur : ℚ
deriving DecidableEq, Repr

/-- The parameter computation of `cut_segment` (`VSR.py` lines 88-100):
`segment_length = end - start`; if `segment_length < 2 * fade_duration`
the fade duration is shrunk to `segment_length / 2`. -/
def cut_segment_filter (start stop fade_duration : ℚ) : CutSpec :=
  let segment_length := stop - start
  let fd := if segment_length < 2 * fade_duration then segment_length / 2 else fade_duration
  { trimStart := start, trimEnd := stop, fadeInStart := 0,
    fadeOutStart := segment_length - fd, fadeDur := fd }

/-- The status messages `process_video` and its stages emit through the
status callback (`VSR.py` lines 88, 116, 136, 142, 153, 155, 31). -/
inductive Msg where
  | videoDuration (d : ℚ)
  | detectingSilence
  | found (n : ℕ)
  | cutting (s e : ℚ)
  | concatenating
  | complete (out : String)
  | error (m : String)
deriving DecidableEq, Repr

/-- Whether a status message is the terminal error message of
`process_video`. -/
def Msg.isError : Msg → Bool
  | .error _ => true
  | _ => false

/-- `cut_segment` (`VSR.py` lines 83-110) as observed at its boundary:
it emits the cutting status message, computes the filter parameters and
runs the external process with `subprocess.run` WITHOUT inspecting its
exit code or checking the output file — the subprocess outcome, modelled
by the `exitCode` and `outputProduced` arguments, is discarded and the
function returns normally in every case. -/
def cut_segment (start stop fade_duration : ℚ) (exitCode : ℤ) (outputProduced : Bool) :
    List Msg × Except String CutSpec :=
  ([Msg.cutting start stop], Except.ok (cut_segment_filter start stop fade_duration))

/-- Maximal leading run of decimal digits of a character list, with the
remainder (the `\d+` parts of the silence patterns in `VSR.py`
lines 44 and 48). -/
def takeDigits : List Char → List Char × List Char
  | [] => ([], [])
  | c :: cs =>
    if c.isDigit then
      let rest := takeDigits cs
      (c :: rest.1, rest.2)
    else ([], c :: cs)

/-- Value of a run of decimal digits. -/
def digitsToNat (ds : List Char) : ℕ :=
  ds.foldl (fun n c => 10 * n + (c.toNat - ('0').toNat)) 0

/-- `10 ^ k` as a plain natural number. -/
def pow10 : ℕ → ℕ
  | 0 => 1
  | k + 1 => 10 * pow10 k

/-- Match the regex group `(\d+(\.\d+)?)` at the head of `cs` and return
its exact rational value: one or more digits, then — only when a dot is
directly followed by at least one digit — a dot and the maximal following
digit run (both `\d+` and `(\.\d+)?` are greedy, as in Python's `re`). -/
def matchGroupNum (cs : List Char) : Option ℚ :=
  let ip := takeDigits cs
  if ip.1.isEmpty then none
  else
    match ip.2 with
    | '.' :: cs2 =>
      let fp := takeDigits cs2
      if fp.1.isEmpty then some (mkRat (digitsToNat ip.1) 1)
      else some (mkRat (digitsToNat (ip.1 ++ fp.1)) (pow10 fp.1.length))
    | _ => some (mkRat (digitsToNat ip.1) 1)

/-- `re.search` for a pattern `lit(\d+(\.\d+)?)...`: the number of the
leftmost position where the literal `lit` is directly followed by at
least one digit (positions where `lit` occurs without a following digit
are skipped, as the regex engine resumes scanning). -/
def searchLitNum (lit : List Char) : List Char → Option ℚ
  | [] => none
  | c :: cs =>
    if lit.isPrefixOf (c :: cs) then
      match matchGroupNum ((c :: cs).drop lit.length) with
      | some q => some q
      | none => searchLitNum lit cs
    else searchLitNum lit cs

/-- Python's `marker in line` substring test. -/
def containsMarker (marker : List Char) : List Char → Bool
  | [] => marker.isEmpty
  | c :: cs => marker.isPrefixOf (c :: cs) || containsMarker marker cs

/-- Timestamp a line contributes to `silence_starts` (`VSR.py`
lines 43-46): the line must contain `silence_start` and the regex
`silence_start: (\d+(\.\d+)?)` must match. -/
def lineStartTime (line : List Char) : Option ℚ :=
  if containsMarker ("silence_start").toList line then
    searchLitNum ("silence_start: ").toList line
  else none

/-- Timestamp a line contributes to `silence_ends` (`VSR.py`
lines 47-50): the line must contain `silence_end` and the regex
`silence_end: (\d+(\.\d+)?).*` must match (the trailing `.*` never
constrains the captured group). -/
def lineEndTime (line : List Char) : Option ℚ :=
  if containsMarker ("silence_end").toList line then
    searchLitNum ("silence_end: ").toList line
  else none

/-- The accumulating `for line in stderr.splitlines()` loop of
`detect_silence` (`VSR.py` lines 40-50): each matching line appends its
timestamp to the corresponding accumulator. -/
def silenceLoop : List (List Char) → List ℚ → List ℚ → List ℚ × List ℚ
  | [], silence_starts, silence_ends => (silence_starts, silence_ends)
  | line :: rest, silence_starts, silence_ends =>
    let starts1 := match lineStartTime line with
      | some q => silence_starts ++ [q]
      | none => silence_starts
    let ends1 := match lineEndTime line with
      | some q => silence_ends ++ [q]
      | none => silence_ends
    silenceLoop rest starts1 ends1

/-- The parsing part of `detect_silence` (`VSR.py` lines 40-51): from the
diagnostic text's lines, the `(silence_starts, silence_ends)` report. -/
def detect_silence_parse (stderrLines : List (List Char)) : List ℚ × List ℚ :=
  silenceLoop stderrLines [] []

/-- A value of Python's `float` type as far as `float(text)` parsing is
concerned: a finite value (modelled exactly as a rational), a signed
infinity, or a NaN. -/
inductive PyFloat where
  | finite (q : ℚ)
  | inf (neg : Bool)
  | nan
deriving DecidableEq, Repr

/-- The whitespace characters Python's `str.strip()` removes. -/
def isPySpace (c : Char) : Bool :=
  c = ' ' || c = '\t' || c = '\n' || c = '\r' || c = '\x0b' || c = '\x0c'

/-- Python's `str.strip()`: drop leading and trailing whitespace. -/
def stripChars (cs : List Char) : List Char :=
  ((cs.dropWhile isPySpace).reverse.dropWhile isPySpace).reverse

/-- The unsigned numeric part of Python's `float(text)` grammar:
`digits [. digits] [(e|E) [sign] digits]` with at least one digit before
or after the dot, consuming the whole input.  (Digit-group underscores
and overflow to infinity are outside this model; no input considered here
uses them.) -/
def parseNumeric (cs : List Char) : Option ℚ :=
  let ip := takeDigits cs
  let fracSplit : Option (List Char) × List Char :=
    match ip.2 with
    | '.' :: t =>
      let fp := takeDigits t
      (some fp.1, fp.2)
    | _ => (none, ip.2)
  let fracDigits := (fracSplit.1).getD []
  if ip.1.isEmpty && fracDigits.isEmpty then none
  else
    let base : ℚ := mkRat (digitsToNat (ip.1 ++ fracDigits)) (pow10 fracDigits.length)
    match fracSplit.2 with
    | [] => some base
    | c :: t =>
      if c = 'e' || c = 'E' then
        let signSplit : Bool × List Char :=
          match t with
          | '+' :: u => (false, u)
          | '-' :: u => (true, u)
          | _ => (false, t)
        let ed := takeDigits signSplit.2
        if ed.1.isEmpty || !ed.2.isEmpty then none
        else
          let e := digitsToNat ed.1
          some (if signSplit.1 then base * mkRat 1 (pow10 e)
            else base * mkRat (pow10 e) 1)
      else none

/-- Python's `float(text)` on already-stripped text: an optional sign,
then case-insensitively `inf`/`infinity`/`nan`, or the numeric grammar of
`parseNumeric`.  `none` models the `ValueError` raise. -/
def parsePyFloat (cs : List Char) : Option PyFloat :=
  let signSplit : Bool × List Char :=
    match cs with
    | '+' :: t => (false, t)
    | '-' :: t => (true, t)
    | _ => (false, cs)
  let low := signSplit.2.map Char.toLower
  if low = ("inf").toList || low = ("infinity").toList then some (.inf signSplit.1)
  else if low = ("nan").toList then some .nan
  else
    match parseNumeric signSplit.2 with
    | some q => some (.finite (if signSplit.1 then -q else q))
    | none => none

/-- `get_video_duration` (`VSR.py` lines 13-24) as a function of the text
the inspection process wrote to stdout: `float(result.stdout.strip())`
is returned as-is when it parses; only a parse failure (`ValueError`)
is turned into the error.  No sign or finiteness check is performed. -/
def get_video_duration (stdout : List Char) : Except String PyFloat :=
  match parsePyFloat (stripChars stdout) with
  | some v => Except.ok v
  | none => Except.error "Failed to get video duration."

/-- The no-segments error message raised at `VSR.py` line 141. -/
def noSegmentsMsg : String :=
  "No non-silent segments detected. Adjust your threshold or silence duration settings."

/-- One run's external-world outcomes, as `process_video` observes them:
what the duration probe, the silence detection, each segment's cut and
the concatenation deliver (`Except.error m` models the stage raising an
exception with message `m`), plus the run's parameters that reach the
core. -/
structure Env where
  durationResult : Except String ℚ
  detectResult : Except String (List ℚ × List ℚ)
  cutResult : ℚ → ℚ → Except String Unit
  concatResult : Except String Unit
  margin : ℚ
  outputFile : String

/-- The `for idx, (start, end) in enumerate(segments)` extraction loop of
`process_video` (`VSR.py` lines 146-149): each iteration first emits the
cutting status message (inside `cut_segment`, line 88) and then performs
the cut; a raise stops the loop.  Returns the messages emitted and the
outcome. -/
def cutLoop (cut : ℚ → ℚ → Except String Unit) : List (ℚ × ℚ) → List Msg × Except String Unit
  | [] => ([], Except.ok ())
  | (s, e) :: rest =>
    match cut s e with
    | Except.error m => ([Msg.cutting s e], Except.error m)
    | Except.ok () =>
      let tail := cutLoop cut rest
      (Msg.cutting s e :: tail.1, tail.2)

/-- The body of `process_video`'s `try` block (`VSR.py` lines 134-153):
the stage sequence with the status messages each stage emits, stopping at
the first raise.  Returns the messages emitted inside the `try` block and
either success or the escaping exception's message.  The keep segments
are computed with the Python-default `min_segment_length = 0.1`
(line 139 passes only `margin`). -/
def pipeline (env : Env) : List Msg × Except String Unit :=
  match env.durationResult with
  | Except.error m => ([], Except.error m)
  | Except.ok duration =>
    let msgs1 := [Msg.videoDuration duration, Msg.detectingSilence]
    match env.detectResult with
    | Except.error m => (msgs1, Except.error m)
    | Except.ok report =>
      let segments := compute_keep_segments report.1 report.2 duration (1/10) env.margin
      if segments.isEmpty then (msgs1, Except.error noSegmentsMsg)
      else
        let msgs2 := msgs1 ++ [Msg.found segments.length]
        let cuts := cutLoop env.cutResult segments
        match cuts.2 with
        | Except.error m => (msgs2 ++ cuts.1, Except.error m)
        | Except.ok () =>
          match env.concatResult with
          | Except.error m => (msgs2 ++ cuts.1 ++ [Msg.concatenating], Except.error m)
          | Except.ok () =>
            (msgs2 ++ cuts.1 ++ [Msg.concatenating, Msg.complete env.outputFile],
             Except.ok ())

/-- `process_video` (`VSR.py` lines 133-155): the `try`/`except` wrapper
around `pipeline`.  Any escaping exception is converted into one final
status message `Error: <message>`; the function itself always returns
normally (it is a total function into the emitted message list). -/
def process_video (env : Env) : List Msg :=
  match pipeline env with
  | (msgs, Except.ok ()) => msgs
  | (msgs, Except.error m) => msgs ++ [Msg.error m]

/-- The silence report `(starts, ends)` is positionally well formed for a
stream of length `duration`: each zipped pair is an interval inside
`[0, duration]`, and consecutive pairs are ordered. -/
def ValidSilence (silence_starts silence_ends : List ℚ) (duration : ℚ) : Prop :=
  (∀ p ∈ silence_starts.zip silence_ends, 0 ≤ p.1 ∧ p.1 ≤ p.2 ∧ p.2 ≤ duration) ∧
  List.Chain' (fun p q : ℚ × ℚ => p.2 ≤ q.1) (silence_starts.zip silence_ends)

/-- Every segment of the list is a genuine interval inside `[0, duration]`. -/
def SegsWithin (duration : ℚ) (segs : List (ℚ × ℚ)) : Prop :=
  ∀ se ∈ segs, 0 ≤ se.1 ∧ se.1 < se.2 ∧ se.2 ≤ duration

/-- A concrete run in which every external stage succeeds but the whole
stream `[0, 5]` is reported silent, so `compute_keep_segments` returns
`[]` and `process_video` raises the no-segments error internally. -/
def envNoSegments : Env :=
  { durationResult := Except.ok 5
    detectResult := Except.ok ([0], [5])
    cutResult := fun _ _ => Except.ok ()
    concatResult := Except.ok ()
    margin := 0
    outputFile := "out.mp4" }

theorem segLoop_spec (min_segment_length duration : ℚ) (hmin : 0 ≤ min_segment_length) :
    ∀ (pairs : List (ℚ × ℚ)) (c : ℚ), 0 ≤ c →
      (∀ p ∈ pairs, 0 ≤ p.2 ∧ p.1 ≤ duration) →
      SegsWithin duration (segLoop min_segment_length pairs c).1 ∧
        0 ≤ (segLoop min_segment_length pairs c).2 := by
  intro pairs
  induction pairs with
  | nil =>
    intro c hc _
    exact ⟨fun se hse => absurd hse (List.not_mem_nil se), hc⟩
  | cons p rest ih =>
    intro c hc hp
    obtain ⟨s_start, s_end⟩ := p
    have hhead := hp (s_start, s_end) (List.mem_cons_self _ _)
    have hrest := ih s_end hhead.1 (fun q hq => hp q (List.mem_cons_of_mem _ hq))
    by_cases hgt : s_start - c > min_segment_length
    · refine ⟨?_, by simpa [segLoop, hgt] using hrest.2⟩
      intro se hse
      simp only [segLoop, if_pos hgt] at hse
      rcases List.mem_cons.mp hse with h | h
      · subst h
        exact ⟨hc, by linarith, hhead.2⟩
      · exact hrest.1 se h
    · refine ⟨?_, by simpa [segLoop, hgt] using hrest.2⟩
      intro se hse
      simp only [segLoop, if_neg hgt] at hse
      exact hrest.1 se hse

theorem marginLoop_within (duration margin : ℚ) (hm : 0 ≤ margin) (n : ℕ) :
    ∀ (l : List (ℚ × ℚ)) (i : ℕ), SegsWithin duration l →
      SegsWithin duration (marginLoop duration margin n l i) := by
  intro l
  induction l with
  | nil =>
    intro i _ se hse
    simp [marginLoop] at hse
  | cons se rest ih =>
    intro i hl q hq
    have hhead := hl se (List.mem_cons_self _ _)
    obtain ⟨h0, hlt, hd⟩ := hhead
    simp only [marginLoop] at hq
    rcases List.mem_cons.mp hq with h | h
    · subst h
      have hstart : (if 0 < i then max (se.1 - margin) 0 else se.1) ≤ se.1 := by
        split
        · exact max_le (by linarith) h0
        · exact le_refl _
      have hstart0 : 0 ≤ (if 0 < i then max (se.1 - margin) 0 else se.1) := by
        split
        · exact le_max_right _ _
        · exact h0
      have hend : se.2 ≤ (if i < n - 1 then min (se.2 + margin) duration else se.2) := by
        split
        · exact le_min (by linarith) hd
        · exact le_refl _
      have hendd : (if i < n - 1 then min (se.2 + margin) duration else se.2) ≤ duration := by
        split
        · exact min_le_right _ _
        · exact hd
      exact ⟨hstart0, by dsimp only; linarith, hendd⟩
    · exact ih (i + 1) (fun r hr => hl r (List.mem_cons_of_mem _ hr)) q h

/-- The two halves of `compute_keep_segments` before the margin pass:
the zipped-pairs walk followed by the final-segment check. -/
theorem compute_keep_segments_raw_within (silence_starts silence_ends : List ℚ)
    (duration min_segment_length : ℚ) (hmin : 0 ≤ min_segment_length)
    (hp : ∀ p ∈ silence_starts.zip silence_ends, 0 ≤ p.2 ∧ p.1 ≤ duration) :
    SegsWithin duration (compute_keep_segments silence_starts silence_ends duration
      min_segment_length 0) := by
  have hwalk := segLoop_spec min_segment_length duration hmin
    (silence_starts.zip silence_ends) 0 le_rfl hp
  simp only [compute_keep_segments, gt_iff_lt, lt_irrefl, if_false]
  split
  · intro se hse
    rcases List.mem_append.mp hse with h | h
    · exact hwalk.1 se h
    · rcases List.mem_singleton.mp h with rfl
      exact ⟨hwalk.2, by linarith, le_refl duration⟩
  · exact hwalk.1

/-- Claim C1: for every non-negative duration, non-negative
`min_segment_length`, arbitrary margin, and every ordered silence report
contained in `[0, duration]`, every interval `(start, end)` returned by
`compute_keep_segments` satisfies `0 ≤ start < end ≤ duration`. -/
theorem keep_segments_within (silence_starts silence_ends : List ℚ)
    (duration min_segment_length margin : ℚ)
    (hdur : 0 ≤ duration) (hmin : 0 ≤ min_segment_length)
    (hval : ValidSilence silence_starts silence_ends duration) :
    SegsWithin duration
      (compute_keep_segments silence_starts silence_ends duration min_segment_length margin) := by
  have hp : ∀ p ∈ silence_starts.zip silence_ends, 0 ≤ p.2 ∧ p.1 ≤ duration := by
    intro p hpmem
    obtain ⟨h1, h2, h3⟩ := hval.1 p hpmem
    exact ⟨le_trans h1 h2, le_trans h2 h3⟩
  have hraw := compute_keep_segments_raw_within silence_starts silence_ends duration
    min_segment_length hmin hp
  simp only [compute_keep_segments, gt_iff_lt, lt_irrefl, if_false] at hraw ⊢
  split
  · exact marginLoop_within duration margin (le_of_lt (by assumption)) _ _ 0 hraw
  · exact hraw

/-- `ValidSilence [2] [3] 10` holds: one silence interval `[2, 3]` inside
`[0, 10]`. -/
theorem validSilence_example : ValidSilence [2] [3] 10 := by
  constructor
  · intro p hp
    rcases List.mem_singleton.mp hp with rfl
    norm_num
  · exact List.chain'_singleton _

/-- Witness for C1 at a concrete input. -/
theorem keep_segments_within_witness :
    (0 : ℚ) ≤ 10 ∧ (0 : ℚ) ≤ 1/10 ∧ ValidSilence [2] [3] 10 ∧
      SegsWithin 10 (compute_keep_segments [2] [3] 10 (1/10) (1/2)) :=
  ⟨by norm_num, by norm_num, validSilence_example,
    keep_segments_within [2] [3] 10 (1/10) (1/2) (by norm_num) (by norm_num)
      validSilence_example⟩

theorem marginLoop_eq_zipWith (duration margin : ℚ) (n : ℕ) :
    ∀ (l : List (ℚ × ℚ)) (i : ℕ),
      marginLoop duration margin n l i =
        List.zipWith
          (fun j (se : ℚ × ℚ) =>
            ((if 0 < j then max (se.1 - margin) 0 else se.1),
             (if j < n - 1 then min (se.2 + margin) duration else se.2)))
          (List.range' i l.length) l := by
  intro l
  induction l with
  | nil => intro i; simp [marginLoop]
  | cons se rest ih =>
    intro i
    simp only [marginLoop, List.length_cons, List.range'_succ, List.zipWith_cons_cons]
    exact congrArg _ (ih (i + 1))

/-- Claim C2: with a positive margin, `compute_keep_segments` is the
unmargined segment list transformed pointwise — every segment except the
first gets `margin` subtracted from its start, clamped below at `0`, and
every segment except the last gets `margin` added to its end, clamped
above at `duration`; the first start and last end are untouched and the
number of segments is unchanged. -/
theorem keep_segments_margin_step (silence_starts silence_ends : List ℚ)
    (duration min_segment_length margin : ℚ) (hm : 0 < margin) :
    compute_keep_segments silence_starts silence_ends duration min_segment_length margin =
      List.zipWith
        (fun i (se : ℚ × ℚ) =>
          ((if 0 < i then max (se.1 - margin) 0 else se.1),
           (if i < (compute_keep_segments silence_starts silence_ends duration
               min_segment_length 0).length - 1
             then min (se.2 + margin) duration else se.2)))
        (List.range (compute_keep_segments silence_starts silence_ends duration
          min_segment_length 0).length)
        (compute_keep_segments silence_starts silence_ends duration min_segment_length 0) ∧
    (compute_keep_segments silence_starts silence_ends duration min_segment_length margin).length
      = (compute_keep_segments silence_starts silence_ends duration
          min_segment_length 0).length := by
  have hraw : compute_keep_segments silence_starts silence_ends duration min_segment_length 0 =
      (let walk := segLoop min_segment_length (silence_starts.zip silence_ends) 0
       if duration - walk.2 > min_segment_length then walk.1 ++ [(walk.2, duration)]
       else walk.1) := by
    simp [compute_keep_segments]
  have hstep : compute_keep_segments silence_starts silence_ends duration min_segment_length
        margin =
      applyMargin (compute_keep_segments silence_starts silence_ends duration
        min_segment_length 0) duration margin := by
    rw [hraw]
    simp [compute_keep_segments, hm]
  constructor
  · rw [hstep, applyMargin, marginLoop_eq_zipWith, List.range_eq_range']
  · rw [hstep, applyMargin, marginLoop_eq_zipWith]
    simp [List.length_zipWith]

/-- Witness for C2 at a concrete input (Scenario A with margin `1/2`). -/
theorem keep_segments_margin_step_witness :
    (0 : ℚ) < 1/2 ∧
    (compute_keep_segments [2] [3] 10 (1/10) (1/2) =
      List.zipWith
        (fun i (se : ℚ × ℚ) =>
          ((if 0 < i then max (se.1 - (1/2)) 0 else se.1),
           (if i < (compute_keep_segments [2] [3] 10 (1/10) 0).length - 1
             then min (se.2 + (1/2)) 10 else se.2)))
        (List.range (compute_keep_segments [2] [3] 10 (1/10) 0).length)
        (compute_keep_segments [2] [3] 10 (1/10) 0) ∧
    (compute_keep_segments [2] [3] 10 (1/10) (1/2)).length =
      (compute_keep_segments [2] [3] 10 (1/10) 0).length) :=
  ⟨by norm_num, keep_segments_margin_step [2] [3] 10 (1/10) (1/2) (by norm_num)⟩

/-- Counterexample to claim C3: on `starts=[2.0]`, `ends=[2.05]`,
`duration=4.0`, `min_segment_length=0.1`, `margin=0` the code does NOT
return `[(0.0, 4.0)]` — the sub-threshold silence interval still splits
the timeline. -/
theorem scenario_e_cex :
    compute_keep_segments [2] [41/20] 4 (1/10) 0 ≠ [(0, 4)] := by
  norm_num [compute_keep_segments, segLoop]

/-- Claim C3 as amended: on that input the code returns
`[(0.0, 2.0), (2.05, 4.0)]` — `min_segment_length` filters out keep
segments (gaps between silences) that are too short; it does not merge
across silence intervals shorter than the threshold. -/
theorem scenario_e_actual :
    compute_keep_segments [2] [41/20] 4 (1/10) 0 = [(0, 2), (41/20, 4)] := by
  norm_num [compute_keep_segments, segLoop]

/-- Counterexample to claim C4: on `starts=[2.0]`, `ends=[3.0]`,
`duration=10.0`, `min_segment_length=0.1`, `margin=0.5` the code does
NOT return `[(0.0, 1.5), (3.5, 10.0)]` — the margin widens segments into
the silence, it does not shrink them. -/
theorem scenario_d_cex :
    compute_keep_segments [2] [3] 10 (1/10) (1/2) ≠ [(0, 3/2), (7/2, 10)] := by
  norm_num [compute_keep_segments, segLoop, applyMargin, marginLoop]

/-- Claim C4 as amended: on that input the code returns
`[(0.0, 2.5), (2.5, 10.0)]` — the first segment's end is extended by the
margin and the last segment's start is reduced by it (the first start and
last end stay untouched). -/
theorem scenario_d_actual :
    compute_keep_segments [2] [3] 10 (1/10) (1/2) = [(0, 5/2), (5/2, 10)] := by
  norm_num [compute_keep_segments, segLoop, applyMargin, marginLoop]

/-- Claim C10: a non-positive margin (any `margin ≤ 0`, negative values
included) leaves the unmargined segment list untouched — the margin pass
only runs when `margin > 0`. -/
theorem keep_segments_nonpos_margin (silence_starts silence_ends : List ℚ)
    (duration min_segment_length margin : ℚ) (h : margin ≤ 0) :
    compute_keep_segments silence_starts silence_ends duration min_segment_length margin =
      compute_keep_segments silence_starts silence_ends duration min_segment_length 0 := by
  simp [compute_keep_segments, not_lt.mpr h]

/-- Witness for C10 at a concrete negative margin. -/
theorem keep_segments_nonpos_margin_witness :
    (-1 : ℚ) ≤ 0 ∧
    compute_keep_segments [2] [3] 10 (1/10) (-1) = compute_keep_segments [2] [3] 10 (1/10) 0 :=
  ⟨by norm_num, keep_segments_nonpos_margin [2] [3] 10 (1/10) (-1) (by norm_num)⟩

theorem silenceLoop_eq (stderrLines : List (List Char)) :
    ∀ acc_starts acc_ends : List ℚ,
      silenceLoop stderrLines acc_starts acc_ends =
        (acc_starts ++ stderrLines.filterMap lineStartTime,
         acc_ends ++ stderrLines.filterMap lineEndTime) := by
  induction stderrLines with
  | nil => intro s0 e0; simp [silenceLoop]
  | cons line rest ih =>
    intro s0 e0
    cases hs : lineStartTime line <;> cases he : lineEndTime line <;>
      simp [silenceLoop, hs, he, ih, List.filterMap_cons, List.append_assoc]

theorem length_filterMap_eq_countP {α β : Type} (f : α → Option β) :
    ∀ l : List α, (l.filterMap f).length = l.countP (fun a => (f a).isSome) := by
  intro l
  induction l with
  | nil => rfl
  | cons a l ih =>
    cases h : f a <;> simp [List.filterMap_cons, h, List.countP_cons, ih]

/-- Claim C5: the silence parser returns exactly the timestamps of the
lines matching the `silence_start: <float>` and `silence_end: <float>`
patterns, in textual line order — so the two lengths equal the two
matching-line counts — and every other line (no marker, or marker with a
non-numeric payload) contributes nothing; the parser is a total function,
so no input raises an error. -/
theorem detect_silence_parse_spec (stderrLines : List (List Char)) :
    detect_silence_parse stderrLines =
      (stderrLines.filterMap lineStartTime, stderrLines.filterMap lineEndTime) ∧
    (detect_silence_parse stderrLines).1.length =
      stderrLines.countP (fun line => (lineStartTime line).isSome) ∧
    (detect_silence_parse stderrLines).2.length =
      stderrLines.countP (fun line => (lineEndTime line).isSome) := by
  have h := silenceLoop_eq stderrLines [] []
  refine ⟨by simpa [detect_silence_parse] using h, ?_, ?_⟩
  · simp [detect_silence_parse, h, length_filterMap_eq_countP]
  · simp [detect_silence_parse, h, length_filterMap_eq_countP]

theorem cutLoop_msgs_no_error (cut : ℚ → ℚ → Except String Unit) :
    ∀ segs : List (ℚ × ℚ), ∀ m ∈ (cutLoop cut segs).1, m.isError = false := by
  intro segs
  induction segs with
  | nil => intro m hm; simp [cutLoop] at hm
  | cons se rest ih =>
    intro m hm
    obtain ⟨s, e⟩ := se
    cases hc : cut s e with
    | error msg =>
      simp only [cutLoop, hc] at hm
      rcases List.mem_singleton.mp hm with rfl
      rfl
    | ok u =>
      cases u
      simp only [cutLoop, hc] at hm
      rcases List.mem_cons.mp hm with rfl | hm'
      · rfl
      · exact ih m hm'

theorem pipeline_msgs_no_error (env : Env) : ∀ m ∈ (pipeline env).1, m.isError = false := by
  intro m hm
  unfold pipeline at hm
  cases hd : env.durationResult with
  | error msg => simp [hd] at hm
  | ok duration =>
    rw [hd] at hm
    cases hdet : env.detectResult with
    | error msg =>
      rw [hdet] at hm
      simp only at hm
      rcases List.mem_cons.mp hm with rfl | hm'
      · rfl
      · rcases List.mem_singleton.mp hm' with rfl
        rfl
    | ok report =>
      rw [hdet] at hm
      simp only at hm
      split at hm
      · rcases List.mem_cons.mp hm with rfl | hm'
        · rfl
        · rcases List.mem_singleton.mp hm' with rfl
          rfl
      · split at hm
        · rcases List.mem_append.mp hm with hm' | hm'
          · rcases List.mem_cons.mp hm' with rfl | hm''
            · rfl
            · rcases List.mem_cons.mp hm'' with rfl | hm'''
              · rfl
              · rcases List.mem_singleton.mp hm''' with rfl
                rfl
          · exact cutLoop_msgs_no_error env.cutResult _ m hm'
        · split at hm
          · rcases List.mem_append.mp hm with hm' | hm'
            · rcases List.mem_append.mp hm' with hm'' | hm''
              · rcases List.mem_cons.mp hm'' with rfl | hm'''
                · rfl
                · rcases List.mem_cons.mp hm''' with rfl | hm''''
                  · rfl
                  · rcases List.mem_singleton.mp hm'''' with rfl
                    rfl
              · exact cutLoop_msgs_no_error env.cutResult _ m hm''
            · rcases List.mem_singleton.mp hm' with rfl
              rfl
          · rcases List.mem_append.mp hm with hm' | hm'
            · rcases List.mem_append.mp hm' with hm'' | hm''
              · rcases List.mem_cons.mp hm'' with rfl | hm'''
                · rfl
                · rcases List.mem_cons.mp hm''' with rfl | hm''''
                  · rfl
                  · rcases List.mem_singleton.mp hm'''' with rfl
                    rfl
              · exact cutLoop_msgs_no_error env.cutResult _ m hm''
            · rcases List.mem_cons.mp hm' with rfl | hm''
              · rfl
              · rcases List.mem_singleton.mp hm'' with rfl
                rfl

/-- Claim C6: whenever a stage of the pipeline raises — the no-segments
case included — `process_video` appends exactly one terminal
`Error: <message>` status message to the messages already emitted
(none of which is an error message) and returns normally:
`process_video` is a total function into the emitted message list, so no
exception reaches its caller. -/
theorem process_video_error_terminal (env : Env) (e : String)
    (h : (pipeline env).2 = Except.error e) :
    process_video env = (pipeline env).1 ++ [Msg.error e] ∧
    (process_video env).filter Msg.isError = [Msg.error e] ∧
    (∀ d report, env.durationResult = Except.ok d → env.detectResult = Except.ok report →
      compute_keep_segments report.1 report.2 d (1/10) env.margin = [] →
      (pipeline env).2 = Except.error noSegmentsMsg) := by
  have hpair : pipeline env = ((pipeline env).1, Except.error e) := by
    rw [← h]
  have h1 : process_video env = (pipeline env).1 ++ [Msg.error e] := by
    rw [process_video, hpair]
  refine ⟨h1, ?_, ?_⟩
  · rw [h1, List.filter_append]
    have hnil : ((pipeline env).1).filter Msg.isError = [] :=
      List.filter_eq_nil_iff.mpr
        (fun m hm => by simp [pipeline_msgs_no_error env m hm])
    rw [hnil]
    rfl
  · intro d report hd hdet hsegs
    rw [one_div] at hsegs
    simp [pipeline, hd, hdet, hsegs]

/-- Witness for C6 at a concrete run: every external stage succeeds but
the whole stream is silent, so the only error is the internally raised
no-segments one. -/
theorem process_video_error_terminal_witness :
    process_video envNoSegments = (pipeline envNoSegments).1 ++ [Msg.error noSegmentsMsg] ∧
    (process_video envNoSegments).filter Msg.isError = [Msg.error noSegmentsMsg] ∧
    (∀ d report, envNoSegments.durationResult = Except.ok d →
      envNoSegments.detectResult = Except.ok report →
      compute_keep_segments report.1 report.2 d (1/10) envNoSegments.margin = [] →
      (pipeline envNoSegments).2 = Except.error noSegmentsMsg) :=
  process_video_error_terminal envNoSegments noSegmentsMsg
    (by norm_num [pipeline, envNoSegments, compute_keep_segments, segLoop])

/-- Claim C7: for every genuine interval and non-negative requested fade
duration, the effective fade duration `cut_segment` uses equals the
requested one when the segment is at least twice as long, and half the
segment length otherwise; it is non-negative, never exceeds half the
segment length, the fade-out start is never earlier than the fade-in end,
and fade-out start plus fade duration lands exactly on the segment end —
the two fades never overlap and never exceed the segment. -/
theorem cut_fade_no_overlap (start stop fade_duration : ℚ)
    (h1 : 0 ≤ start) (h2 : start < stop) (h3 : 0 ≤ fade_duration) :
    (cut_segment_filter start stop fade_duration).fadeDur =
      (if stop - start < 2 * fade_duration then (stop - start) / 2 else fade_duration) ∧
    0 ≤ (cut_segment_filter start stop fade_duration).fadeDur ∧
    (cut_segment_filter start stop fade_duration).fadeDur ≤ (stop - start) / 2 ∧
    (cut_segment_filter start stop fade_duration).fadeDur ≤
      (cut_segment_filter start stop fade_duration).fadeOutStart ∧
    (cut_segment_filter start stop fade_duration).fadeOutStart +
      (cut_segment_filter start stop fade_duration).fadeDur = stop - start := by
  simp only [cut_segment_filter]
  split
  · refine ⟨trivial, by linarith, by linarith, by linarith, by ring⟩
  · rename_i hge
    push_neg at hge
    refine ⟨trivial, h3, by linarith, by linarith, by ring⟩

/-- Witness for C7 at a concrete input. -/
theorem cut_fade_no_overlap_witness :
    (0 : ℚ) ≤ 0 ∧ (0 : ℚ) < 1 ∧ (0 : ℚ) ≤ 1/10 ∧
    ((cut_segment_filter 0 1 (1/10)).fadeDur =
      (if 1 - 0 < 2 * (1/10 : ℚ) then (1 - 0) / 2 else 1/10) ∧
    0 ≤ (cut_segment_filter 0 1 (1/10)).fadeDur ∧
    (cut_segment_filter 0 1 (1/10)).fadeDur ≤ (1 - 0) / 2 ∧
    (cut_segment_filter 0 1 (1/10)).fadeDur ≤ (cut_segment_filter 0 1 (1/10)).fadeOutStart ∧
    (cut_segment_filter 0 1 (1/10)).fadeOutStart + (cut_segment_filter 0 1 (1/10)).fadeDur
      = 1 - 0) :=
  ⟨le_refl 0, by norm_num, by norm_num,
    cut_fade_no_overlap 0 1 (1/10) (le_refl 0) (by norm_num) (by norm_num)⟩

/-- Counterexample to claim C8: invoked with a non-zero exit code (`1`)
and no output file produced, `cut_segment` still returns success — it
raises no `ExtractionError`. -/
theorem cut_segment_ignores_failure_cex :
    (cut_segment 0 1 (1/10) 1 false).2 = Except.ok (cut_segment_filter 0 1 (1/10)) ∧
    ((cut_segment 0 1 (1/10) 1 false).2).isOk = true :=
  ⟨rfl, rfl⟩

/-- Claim C8 as amended: `cut_segment` never inspects the external
process's exit code or the output file — its result is identical for
every exit code and output-file state, and it always returns
successfully, continuing silently after a failed extraction. -/
theorem cut_segment_no_failure_check (start stop fade_duration : ℚ)
    (code₁ code₂ : ℤ) (out₁ out₂ : Bool) :
    cut_segment start stop fade_duration code₁ out₁ =
      cut_segment start stop fade_duration code₂ out₂ ∧
    (cut_segment start stop fade_duration code₁ out₁).2 =
      Except.ok (cut_segment_filter start stop fade_duration) ∧
    (cut_segment start stop fade_duration code₁ out₁).1 = [Msg.cutting start stop] :=
  ⟨rfl, rfl, rfl⟩

/-- Counterexample to claim C9: the duration probe accepts text parsing
to a negative number (`-5.0`) and to a non-finite one (`inf`), returning
them as successes instead of failing. -/
theorem get_video_duration_accepts_nonpositive_cex :
    get_video_duration (("-5.0").toList) = Except.ok (PyFloat.finite (-5)) ∧
    get_video_duration (("inf").toList) = Except.ok (PyFloat.inf false) :=
  ⟨rfl, rfl⟩

/-- Claim C9 as amended: `get_video_duration` fails with the probe error
exactly when the stripped text does not parse as a Python float literal
at all, and otherwise returns whatever value was parsed — sign and
finiteness are never checked. -/
theorem get_video_duration_spec (stdout : List Char) :
    (get_video_duration stdout = Except.error "Failed to get video duration." ↔
      parsePyFloat (stripChars stdout) = none) ∧
    (∀ v, parsePyFloat (stripChars stdout) = some v →
      get_video_duration stdout = Except.ok v) := by
  cases h : parsePyFloat (stripChars stdout) <;>
    simp [get_video_duration, h]

end VSR
